import Mathlib

/-!
Verification of the fetch-aggregate-dedupe-filter pipeline of the
`nlpxcredit` scraper (`src/ft_scraper.py`, `src/extract.py`).

The stateless pipeline stages are embedded as pure Lean functions:
* `dedupe` — the URL-based duplicate removal loop of
  `FinancialTimesScraper.scrape_all_sources` (ft_scraper.py lines 299-305,
  extract.py lines 383-389);
* `filter_articles` — `FinancialTimesScraper.filter_articles`
  (ft_scraper.py lines 324-344, extract.py lines 406-435);
* `bound` — the min-warning / max-truncation step of `scrape_all_sources`
  (ft_scraper.py lines 312-319, extract.py lines 394-401);
* `get_page_content` — the retry loop of
  `FinancialTimesScraper.get_page_content` (ft_scraper.py lines 116-147),
  with the per-attempt I/O abstracted as outcome streams;
* `scrape_all_sources` — the composition, with per-source extraction
  results (including raised exceptions) supplied as `Except` values.
-/

/-- One scraped article record, as built in `extract_ft_articles`
(ft_scraper.py lines 219-227).  The `scraped_at` field of the Python dict
is dropped: no pipeline stage reads it. -/
structure Article where
  source : String
  title : String
  url : String
  summary : String
  date : String
  category : String
deriving DecidableEq, Repr

/-- Boolean membership test in the `seen_urls` collection
(Python `article['url'] not in seen_urls`); the Python `set` is modelled
as the list of urls added so far, membership being all that is used. -/
def seenMem (u : String) : List String → Bool
  | [] => false
  | v :: rest => u == v || seenMem u rest

theorem seenMem_iff (u : String) (l : List String) : seenMem u l = true ↔ u ∈ l := by
  induction l with
  | nil => simp [seenMem]
  | cons v rest ih =>
    simp only [seenMem, Bool.or_eq_true, beq_iff_eq, ih, List.mem_cons]

/-- The deduplication loop of `scrape_all_sources` (ft_scraper.py lines
299-305): walk the articles in order, keep an article iff its url has not
been seen, and record the url as seen. -/
def dedupeAux (seen : List String) : List Article → List Article
  | [] => []
  | a :: rest =>
    if seenMem a.url seen then dedupeAux seen rest
    else a :: dedupeAux (a.url :: seen) rest

/-- `dedupe` starts from an empty `seen_urls` set. -/
def dedupe (articles : List Article) : List Article := dedupeAux [] articles

/-- Every url surviving `dedupeAux seen` was not in `seen`. -/
theorem dedupeAux_url_not_seen (seen : List String) (l : List Article) (u : String)
    (hu : u ∈ (dedupeAux seen l).map Article.url) : seenMem u seen = false := by
  induction l generalizing seen with
  | nil => simp [dedupeAux] at hu
  | cons a rest ih =>
    by_cases h : seenMem a.url seen = true
    · simp only [dedupeAux, h, if_true] at hu
      exact ih seen hu
    · simp only [dedupeAux, Bool.not_eq_true] at h
      simp only [dedupeAux, h, Bool.false_eq_true, if_false, List.map_cons,
        List.mem_cons] at hu
      rcases hu with rfl | hu
      · exact h
      · have := ih (a.url :: seen) hu
        simp only [seenMem, Bool.or_eq_false_iff] at this
        exact this.2

/-- The urls surviving `dedupeAux` are pairwise distinct. -/
theorem dedupeAux_nodup (seen : List String) (l : List Article) :
    ((dedupeAux seen l).map Article.url).Nodup := by
  induction l generalizing seen with
  | nil => simp [dedupeAux]
  | cons a rest ih =>
    by_cases h : seenMem a.url seen = true
    · simpa [dedupeAux, h] using ih seen
    · simp only [Bool.not_eq_true] at h
      simp only [dedupeAux, h, Bool.false_eq_true, if_false, List.map_cons,
        List.nodup_cons]
      refine ⟨fun hmem => ?_, ih (a.url :: seen)⟩
      have := dedupeAux_url_not_seen (a.url :: seen) rest a.url hmem
      simp [seenMem] at this

/-- A url occurs in the output of `dedupeAux seen` iff it occurs in the
input and is not in `seen`: deduplication drops no url and invents none. -/
theorem dedupeAux_mem_url (seen : List String) (l : List Article) (u : String) :
    u ∈ (dedupeAux seen l).map Article.url ↔
      seenMem u seen = false ∧ u ∈ l.map Article.url := by
  induction l generalizing seen with
  | nil => simp [dedupeAux]
  | cons a rest ih =>
    by_cases h : seenMem a.url seen = true
    · simp only [dedupeAux, h, if_true, ih seen, List.map_cons, List.mem_cons]
      constructor
      · rintro ⟨hns, hm⟩; exact ⟨hns, Or.inr hm⟩
      · rintro ⟨hns, rfl | hm⟩
        · rw [h] at hns; cases hns
        · exact ⟨hns, hm⟩
    · simp only [Bool.not_eq_true] at h
      simp only [dedupeAux, h, Bool.false_eq_true, if_false, List.map_cons,
        List.mem_cons, ih (a.url :: seen)]
      constructor
      · rintro (rfl | ⟨hns, hm⟩)
        · exact ⟨h, Or.inl rfl⟩
        · simp only [seenMem, Bool.or_eq_false_iff] at hns
          exact ⟨hns.2, Or.inr hm⟩
      · rintro ⟨hns, rfl | hm⟩
        · exact Or.inl rfl
        · by_cases hau : u = a.url
          · exact Or.inl hau
          · refine Or.inr ⟨?_, hm⟩
            simp [seenMem, hns, hau]

/-- The first record of the output of `dedupeAux` whose url is `u` is the
first record of the input whose url is `u`, provided `u` is unseen. -/
theorem dedupeAux_find? (seen : List String) (l : List Article) (u : String)
    (hu : seenMem u seen = false) :
    (dedupeAux seen l).find? (fun a => a.url == u) = l.find? (fun a => a.url == u) := by
  induction l generalizing seen with
  | nil => simp [dedupeAux]
  | cons a rest ih =>
    by_cases h : seenMem a.url seen = true
    · have hne : (a.url == u) = false := by
        by_cases he : a.url = u
        · subst he; simp [h] at hu
        · simp [he]
      simp only [dedupeAux, h, if_true, List.find?_cons, hne]
      exact ih seen hu
    · simp only [Bool.not_eq_true] at h
      by_cases he : a.url = u
      · subst he
        simp [dedupeAux, h, List.find?_cons]
      · have hne : (a.url == u) = false := by simp [he]
        simp only [dedupeAux, h, Bool.false_eq_true, if_false, List.find?_cons, hne]
        refine ih (a.url :: seen) ?_
        have hbeq : (u == a.url) = false := by
          simp only [beq_eq_false_iff_ne, ne_eq]
          intro hc
          exact he hc.symm
        simp [seenMem, hu, hbeq]

/-- The output of `dedupeAux` is a sublist of its input: records are kept
in their original order and never modified or duplicated. -/
theorem dedupeAux_sublist (seen : List String) (l : List Article) :
    List.Sublist (dedupeAux seen l) l := by
  induction l generalizing seen with
  | nil => simp [dedupeAux]
  | cons a rest ih =>
    by_cases h : seenMem a.url seen = true
    · simp only [dedupeAux, h, if_true]
      exact List.Sublist.cons a (ih seen)
    · simp only [Bool.not_eq_true] at h
      simp only [dedupeAux, h, Bool.false_eq_true, if_false]
      exact List.Sublist.cons₂ a (ih (a.url :: seen))

/-- Claim C1: deduplication keeps, for each url, exactly the first record
bearing it and discards every later record with the same url: the output
is a sublist of the input, its urls are pairwise distinct (so at most one
record per url survives), and for every url the first surviving record is
the first input record with that url. -/
theorem dedupe_first_seen_wins (l : List Article) (u : String) :
    ((dedupe l).map Article.url).Nodup ∧
      (dedupe l).find? (fun a => a.url == u) = l.find? (fun a => a.url == u) ∧
      List.Sublist (dedupe l) l :=
  ⟨dedupeAux_nodup [] l, dedupeAux_find? [] l u rfl, dedupeAux_sublist [] l⟩

/-- On an input whose urls are pairwise distinct and disjoint from `seen`,
`dedupeAux` is the identity. -/
theorem dedupeAux_eq_self (seen : List String) (l : List Article)
    (hnd : (l.map Article.url).Nodup)
    (hfree : ∀ u ∈ l.map Article.url, seenMem u seen = false) :
    dedupeAux seen l = l := by
  induction l generalizing seen with
  | nil => rfl
  | cons a rest ih =>
    have ha : seenMem a.url seen = false := hfree a.url (by simp)
    simp only [List.map_cons, List.nodup_cons] at hnd
    simp only [dedupeAux, ha, Bool.false_eq_true, if_false, List.cons.injEq, true_and]
    refine ih (a.url :: seen) hnd.2 fun u hu => ?_
    have hne : ¬u = a.url := fun hc => hnd.1 (hc ▸ hu)
    have hfr := hfree u (List.mem_cons_of_mem _ hu)
    have hbeq : (u == a.url) = false := by
      simp only [beq_eq_false_iff_ne, ne_eq]
      exact hne
    simp [seenMem, hfr, hbeq]

/-- Claim C9: URL-based deduplication is idempotent — applying `dedupe`
to its own output returns that output unchanged. -/
theorem dedupe_idempotent (l : List Article) : dedupe (dedupe l) = dedupe l :=
  dedupeAux_eq_self [] (dedupe l) (dedupeAux_nodup [] l) (fun _ _ => rfl)

/-- The merge phase of `scrape_all_sources` (ft_scraper.py lines 283-305):
the per-source batches are concatenated in the order they arrive from
`concurrent.futures.as_completed` — without any re-sorting — and the
concatenation is then deduplicated. -/
def mergeBatches (batches : List (List Article)) : List Article :=
  dedupe batches.flatten

/-- A record from source one, sharing its url with `artB`. -/
def artA : Article :=
  { source := "Source One", title := "Alpha market story", url := "https://x/a",
    summary := "", date := "", category := "" }

/-- A record from source two with the same url as `artA` but a different
title. -/
def artB : Article :=
  { source := "Source Two", title := "Beta market story!!", url := "https://x/a",
    summary := "", date := "", category := "" }

/-- Claim C2, counterexample: the code does not re-sort batches into
descriptor order before merging; with the same two fixed single-record
batches arriving in the two possible completion orders, the deduplicated
outputs differ (one keeps `artA`, the other keeps `artB`). -/
theorem mergeBatches_arrival_order_dependent :
    mergeBatches [[artA], [artB]] ≠ mergeBatches [[artB], [artA]] := by
  decide

/-- Claim C2, amended: the merge processes batches in arrival order, so
only the set of surviving urls — not the surviving records — is
independent of the completion order: for any two arrival orders of the
same fixed per-source batches, a url occurs in one deduplicated output
iff it occurs in the other. -/
theorem mergeBatches_url_membership_perm_invariant
    (bs₁ bs₂ : List (List Article)) (h : List.Perm bs₁ bs₂) (u : String) :
    u ∈ (mergeBatches bs₁).map Article.url ↔
      u ∈ (mergeBatches bs₂).map Article.url := by
  have hmem : ∀ bs : List (List Article),
      (u ∈ (mergeBatches bs).map Article.url ↔
        ∃ b ∈ bs, u ∈ b.map Article.url) := by
    intro bs
    rw [mergeBatches, dedupe, dedupeAux_mem_url]
    constructor
    · rintro ⟨-, hm⟩
      rcases List.mem_map.mp hm with ⟨a, ha, rfl⟩
      rcases List.mem_flatten.mp ha with ⟨b, hb, hab⟩
      exact ⟨b, hb, List.mem_map.mpr ⟨a, hab, rfl⟩⟩
    · rintro ⟨b, hb, hub⟩
      rcases List.mem_map.mp hub with ⟨a, hab, rfl⟩
      exact ⟨rfl, List.mem_map.mpr ⟨a, List.mem_flatten.mpr ⟨b, hb, hab⟩, rfl⟩⟩
  rw [hmem bs₁, hmem bs₂]
  constructor
  · rintro ⟨b, hb, hub⟩; exact ⟨b, h.mem_iff.mp hb, hub⟩
  · rintro ⟨b, hb, hub⟩; exact ⟨b, h.mem_iff.mpr hb, hub⟩

/-- Witness for the amended claim C2 at the concrete batches of the
counterexample: the shared url survives under both completion orders. -/
theorem mergeBatches_url_membership_perm_invariant_witness :
    "https://x/a" ∈ (mergeBatches [[artA], [artB]]).map Article.url ↔
      "https://x/a" ∈ (mergeBatches [[artB], [artA]]).map Article.url :=
  mergeBatches_url_membership_perm_invariant [[artA], [artB]] [[artB], [artA]]
    (List.Perm.swap [artB] [artA] []) "https://x/a"

/-- Boolean test that `p` is an initial segment of `s`, the model of
Python `str.startswith`. -/
def isPrefixB : List Char → List Char → Bool
  | [], _ => true
  | _ :: _, [] => false
  | a :: as, b :: bs => a == b && isPrefixB as bs

/-- Boolean substring test, the model of Python `needle in hay` on
strings: `needle` is a prefix of some suffix of `hay`. -/
def isInfixB (needle : List Char) : List Char → Bool
  | [] => isPrefixB needle []
  | c :: rest => isPrefixB needle (c :: rest) || isInfixB needle rest

/-- `isPrefixB` decides the proposition "`s` starts with `p`". -/
theorem isPrefixB_iff : ∀ p s : List Char, isPrefixB p s = true ↔ ∃ t, s = p ++ t
  | [], s => by simp [isPrefixB]
  | a :: as, [] => by simp [isPrefixB]
  | a :: as, b :: bs => by
    simp only [isPrefixB, Bool.and_eq_true, beq_iff_eq, isPrefixB_iff as bs,
      List.cons_append, List.cons.injEq]
    constructor
    · rintro ⟨rfl, t, rfl⟩
      exact ⟨t, rfl, rfl⟩
    · rintro ⟨t, rfl, rfl⟩
      exact ⟨rfl, t, rfl⟩

/-- `isInfixB` decides the proposition "`needle` occurs contiguously
somewhere inside `hay`". -/
theorem isInfixB_iff : ∀ needle hay : List Char,
    isInfixB needle hay = true ↔ ∃ s t, hay = s ++ needle ++ t
  | needle, [] => by
    simp only [isInfixB, isPrefixB_iff]
    constructor
    · rintro ⟨t, ht⟩
      exact ⟨[], t, ht⟩
    · rintro ⟨s, t, ht⟩
      rcases List.append_eq_nil.mp ht.symm with ⟨h1, h2⟩
      rcases List.append_eq_nil.mp h1 with ⟨hs, hn⟩
      exact ⟨[], by simp [hn]⟩
  | needle, c :: rest => by
    simp only [isInfixB, Bool.or_eq_true, isPrefixB_iff, isInfixB_iff needle rest]
    constructor
    · rintro (⟨t, ht⟩ | ⟨s, t, ht⟩)
      · exact ⟨[], t, by simpa using ht⟩
      · exact ⟨c :: s, t, by simp [ht]⟩
    · rintro ⟨s, t, ht⟩
      cases s with
      | nil =>
        exact Or.inl ⟨t, by simpa using ht⟩
      | cons c' s' =>
        simp only [List.cons_append, List.append_assoc, List.cons.injEq] at ht
        exact Or.inr ⟨s', t, by simp [ht.2]⟩

/-- Python `needle in hay` for `String`s, on their character data. -/
def strContains (hay needle : String) : Bool := isInfixB needle.data hay.data

/-- Python `s.startswith(p)` for `String`s, on their character data. -/
def strStartsWith (s p : String) : Bool := isPrefixB p.data s.data

/-- The per-record predicate of `filter_articles` (ft_scraper.py lines
328-340): some keyword occurs in the lowercased title or lowercased
summary, the title has at least 10 characters, and the url starts with
one of the required prefixes (ft_scraper.py uses the single prefix
`https://www.ft.com/`, extract.py the single prefix `http`). -/
def keepArticle (keywords urlPrefixes : List String) (a : Article) : Bool :=
  let titleLower := a.title.toLower
  let summaryLower := a.summary.toLower
  let isRelevant := keywords.any fun k =>
    strContains titleLower k || strContains summaryLower k
  let hasMinimumLength := decide (10 ≤ a.title.length)
  let hasValidUrl := urlPrefixes.any fun p => strStartsWith a.url p
  isRelevant && hasMinimumLength && hasValidUrl

/-- `FinancialTimesScraper.filter_articles` (ft_scraper.py lines 324-344):
walk the records in order, appending those passing `keepArticle`. -/
def filter_articles (keywords urlPrefixes : List String) : List Article → List Article
  | [] => []
  | a :: rest =>
    if keepArticle keywords urlPrefixes a then
      a :: filter_articles keywords urlPrefixes rest
    else
      filter_articles keywords urlPrefixes rest

/-- The append loop of `filter_articles` is `List.filter keepArticle`. -/
theorem filter_articles_eq_filter (keywords urlPrefixes : List String)
    (l : List Article) :
    filter_articles keywords urlPrefixes l = l.filter (keepArticle keywords urlPrefixes) := by
  induction l with
  | nil => rfl
  | cons a rest ih =>
    by_cases h : keepArticle keywords urlPrefixes a = true
    · simp [filter_articles, h, List.filter_cons, ih]
    · simp only [Bool.not_eq_true] at h
      simp [filter_articles, h, List.filter_cons, ih]

/-- Claim C8: the relevance filter's output is a subsequence of its input
in the same relative order — it equals the input restricted to the kept
records, with no reordering, duplication, or modification. -/
theorem filter_articles_sublist (keywords urlPrefixes : List String) (l : List Article) :
    List.Sublist (filter_articles keywords urlPrefixes l) l ∧
      filter_articles keywords urlPrefixes l = l.filter (keepArticle keywords urlPrefixes) := by
  refine ⟨?_, filter_articles_eq_filter keywords urlPrefixes l⟩
  rw [filter_articles_eq_filter]
  exact List.filter_sublist l

/-- Claim C5: the relevance filter retains a record iff (a) some keyword
occurs as a substring of the lowercased title or lowercased summary
(the code's rendering of case-insensitive matching), (b) the title is at
least 10 characters long, and (c) the url starts with at least one of
the required url prefixes. -/
theorem filter_articles_retains_iff (keywords urlPrefixes : List String)
    (a : Article) (l : List Article) :
    a ∈ filter_articles keywords urlPrefixes l ↔
      a ∈ l ∧
        (∃ k ∈ keywords,
          (∃ s t, a.title.toLower.data = s ++ k.data ++ t) ∨
            (∃ s t, a.summary.toLower.data = s ++ k.data ++ t)) ∧
        10 ≤ a.title.length ∧
        (∃ p ∈ urlPrefixes, ∃ t, a.url.data = p.data ++ t) := by
  rw [filter_articles_eq_filter, List.mem_filter]
  constructor
  · rintro ⟨hmem, hkeep⟩
    refine ⟨hmem, ?_⟩
    simp only [keepArticle, Bool.and_eq_true, List.any_eq_true, Bool.or_eq_true,
      decide_eq_true_eq, strContains, strStartsWith, isInfixB_iff, isPrefixB_iff] at hkeep
    exact ⟨hkeep.1.1, hkeep.1.2, hkeep.2⟩
  · rintro ⟨hmem, hk, hlen, hp⟩
    refine ⟨hmem, ?_⟩
    simp only [keepArticle, Bool.and_eq_true, List.any_eq_true, Bool.or_eq_true,
      decide_eq_true_eq, strContains, strStartsWith, isInfixB_iff, isPrefixB_iff]
    exact ⟨⟨hk, hlen⟩, hp⟩

/-- The message of `logger.warning` at ft_scraper.py line 314. -/
def insufficientWarning (got need : Nat) : String :=
  "Only found " ++ toString got ++ " articles, less than minimum " ++ toString need

/-- The cardinality-bounding step of `scrape_all_sources` (ft_scraper.py
lines 312-319): warn when the record count is below `minArticles`, then
truncate to the first `maxArticles` records when the count exceeds
`maxArticles`.  The warning check runs on the pre-truncation count. -/
def bound (records : List Article) (minArticles maxArticles : Nat) :
    List Article × List String :=
  let warnings :=
    if records.length < minArticles then
      [insufficientWarning records.length minArticles]
    else []
  let limited :=
    if maxArticles < records.length then records.take maxArticles else records
  (limited, warnings)

/-- Claim C4: the bounded output never exceeds `maxArticles` records; when
the input is longer than `maxArticles` the output is exactly its first
`maxArticles` records in order and the truncation itself emits no warning
(whenever the minimum is met, the warning list is empty); and when the
input length lies between the bounds the output is the input unchanged. -/
theorem bound_cardinality (records : List Article) (minArticles maxArticles : Nat) :
    (bound records minArticles maxArticles).1.length ≤ maxArticles ∧
      (maxArticles < records.length →
        (bound records minArticles maxArticles).1 = records.take maxArticles ∧
          (minArticles ≤ records.length →
            (bound records minArticles maxArticles).2 = [])) ∧
      (minArticles ≤ records.length → records.length ≤ maxArticles →
        (bound records minArticles maxArticles).1 = records) := by
  refine ⟨?_, fun hmax => ⟨?_, fun hmin => ?_⟩, fun hmin hmax => ?_⟩
  · by_cases h : maxArticles < records.length
    · simp [bound, h, List.length_take]
    · simp only [Nat.not_lt] at h
      simp [bound, if_neg (Nat.not_lt.mpr h), h]
  · simp [bound, hmax]
  · simp [bound, Nat.not_lt.mpr hmin]
  · simp [bound, Nat.not_lt.mpr hmax]

/-- Witness for claim C4 at concrete inputs: a 3-record input with
bounds 2..2 is truncated to its first 2 records with no warning, and a
1-record input with bounds 0..2 passes through unchanged. -/
theorem bound_cardinality_witness :
    (bound [artA, artB, artA] 2 2).1 = [artA, artB] ∧
      (bound [artA, artB, artA] 2 2).2 = [] ∧
      (bound [artB] 0 2).1 = [artB] := by
  refine ⟨?_, ?_, ?_⟩
  · have h := (bound_cardinality [artA, artB, artA] 2 2).2.1 (by decide)
    rw [h.1]
    rfl
  · exact ((bound_cardinality [artA, artB, artA] 2 2).2.1 (by decide)).2 (by decide)
  · exact (bound_cardinality [artB] 0 2).2.2 (by decide) (by decide)

/-- Claim C7, counterexample: with `minArticles = 10`, `maxArticles = 5`
and exactly 5 surviving records, the output does have 5 records but the
minimum-count warning IS emitted (the claim asserts no warning can fire
when `maxArticles < minArticles`). -/
theorem bound_min_warning_fires_despite_max :
    (bound [artA, artB, artA, artB, artA] 10 5).1.length = 5 ∧
      (bound [artA, artB, artA, artB, artA] 10 5).2 ≠ [] := by
  constructor
  · rfl
  · simp [bound]

/-- Claim C7, amended: the minimum-count warning fires exactly when the
pre-truncation record count is below `minArticles`, independently of
`maxArticles` — in particular, with min=10, max=5 and exactly 5 surviving
records, the output has 5 records and the warning is emitted. -/
theorem bound_min_warning_iff :
    (∀ (records : List Article) (minArticles maxArticles : Nat),
        (bound records minArticles maxArticles).2 ≠ [] ↔
          records.length < minArticles) ∧
      (∀ records : List Article, records.length = 5 →
        (bound records 10 5).1.length = 5 ∧
          (bound records 10 5).2 = [insufficientWarning 5 10]) := by
  constructor
  · intro records minArticles maxArticles
    by_cases h : records.length < minArticles
    · simp [bound, h]
    · simp [bound, h]
  · intro records h5
    constructor
    · simp [bound, h5]
    · simp [bound, h5]

/-- Witness for the amended claim C7 at a concrete 5-record input with
min=10 and max=5: the output keeps all 5 records and the warning fires. -/
theorem bound_min_warning_iff_witness :
    (bound [artA, artB, artA, artB, artA] 10 5).1.length = 5 ∧
      (bound [artA, artB, artA, artB, artA] 10 5).2 = [insufficientWarning 5 10] :=
  bound_min_warning_iff.2 [artA, artB, artA, artB, artA] rfl

/-- Result of one attempt body of `get_page_content` (ft_scraper.py lines
119-133): either the page text is returned, or the attempt raises a
`requests.exceptions.RequestException`, or it raises some other
exception. -/
inductive FetchOutcome where
  | success (content : String)
  | requestException
  | otherException
deriving DecidableEq, Repr

/-- Outcome of the attempt body for a given attempt index: with
`use_selenium`, a selenium render that produces (non-empty) content
returns immediately (`get_page_with_selenium` traps its own errors and
returns `None` on failure); otherwise — and always when `use_selenium`
is false — the outcome is that of the `session.get` request. -/
def attemptOutcome (useSelenium : Bool) (seleniumContent : Nat → Option String)
    (requestResult : Nat → FetchOutcome) (attempt : Nat) : FetchOutcome :=
  match useSelenium, seleniumContent attempt with
  | true, some content => .success content
  | true, none => requestResult attempt
  | false, _ => requestResult attempt

/-- The retry loop of `get_page_content` (ft_scraper.py lines 118-147),
returning the result together with the number of attempts performed.
`fuel` is the number of loop iterations left (`max_retries - attempt`):
on success the content is returned; on a `RequestException` the loop
retries iff a further iteration remains (`attempt < max_retries - 1`),
otherwise it returns `none`; on any other exception it returns `none`
immediately; a loop that runs out of iterations returns `none`. -/
def gpcAttempt (att : Nat → FetchOutcome) : Nat → Nat → Option String × Nat
  | _, 0 => (none, 0)
  | attempt, fuel + 1 =>
    match att attempt, fuel with
    | .success content, _ => (some content, 1)
    | .otherException, _ => (none, 1)
    | .requestException, 0 => (none, 1)
    | .requestException, f + 1 =>
      let rest := gpcAttempt att (attempt + 1) (f + 1)
      (rest.1, rest.2 + 1)

/-- `FinancialTimesScraper.get_page_content` (ft_scraper.py lines
116-147): run the retry loop from attempt 0 with `maxRetries` iterations
available (the Python default is `max_retries=3`). -/
def get_page_content (useSelenium : Bool) (seleniumContent : Nat → Option String)
    (requestResult : Nat → FetchOutcome) (maxRetries : Nat) : Option String × Nat :=
  gpcAttempt (attemptOutcome useSelenium seleniumContent requestResult) 0 maxRetries

/-- If every available attempt raises a `RequestException`, the loop runs
all `fuel` iterations and returns `none`. -/
theorem gpcAttempt_allReq (att : Nat → FetchOutcome) :
    ∀ fuel attempt : Nat,
      (∀ i, i < fuel → att (attempt + i) = .requestException) →
      gpcAttempt att attempt fuel = (none, fuel)
  | 0, attempt, _ => rfl
  | 1, attempt, h => by
    have h0 := h 0 (by omega)
    rw [Nat.add_zero] at h0
    simp [gpcAttempt, h0]
  | fuel + 2, attempt, h => by
    have h0 := h 0 (by omega)
    rw [Nat.add_zero] at h0
    have ih := gpcAttempt_allReq att (fuel + 1) (attempt + 1) (fun i hi => by
      have hx := h (i + 1) (by omega)
      rwa [show attempt + (i + 1) = attempt + 1 + i by omega] at hx)
    simp [gpcAttempt, h0, ih]

/-- Claim C3, counterexample: with `max_retries = 3` (the default) and
every attempt failing with a `RequestException`, the loop performs 3
attempts — not `1 + max_retries = 4` — before returning `none`. -/
theorem get_page_content_attempts_ne_one_plus_max :
    get_page_content false (fun _ => none) (fun _ => .requestException) 3
        = (none, 3) ∧
      (get_page_content false (fun _ => none) (fun _ => .requestException) 3).2
        ≠ 1 + 3 := by
  constructor
  · rfl
  · decide

/-- Claim C3, amended: when every attempt fails with a
`RequestException`, `get_page_content` invokes the attempt body exactly
`max_retries` times — the parameter counts total attempts, not
additional retries — and then returns `none` to the caller instead of
raising. -/
theorem get_page_content_all_fail_returns_none (useSelenium : Bool)
    (seleniumContent : Nat → Option String) (requestResult : Nat → FetchOutcome)
    (maxRetries : Nat)
    (h : ∀ i, i < maxRetries →
      attemptOutcome useSelenium seleniumContent requestResult i = .requestException) :
    get_page_content useSelenium seleniumContent requestResult maxRetries
      = (none, maxRetries) :=
  gpcAttempt_allReq _ maxRetries 0 (fun i hi => by
    rw [Nat.zero_add]
    exact h i hi)

/-- Witness for the amended claim C3 at `max_retries = 3` with every
request raising a `RequestException`. -/
theorem get_page_content_all_fail_returns_none_witness :
    get_page_content false (fun _ => none) (fun _ => .requestException) 3
      = (none, 3) :=
  get_page_content_all_fail_returns_none false (fun _ => none)
    (fun _ => .requestException) 3 (fun _ _ => rfl)

/-- If the first `k` attempts raise `RequestException` and attempt `k`
raises any other exception while iterations remain, the loop stops after
`k + 1` attempts and returns `none`. -/
theorem gpcAttempt_otherAt (att : Nat → FetchOutcome) :
    ∀ k attempt fuel : Nat,
      (∀ i, i < k → att (attempt + i) = .requestException) →
      att (attempt + k) = .otherException →
      k < fuel →
      gpcAttempt att attempt fuel = (none, k + 1)
  | 0, attempt, fuel, _, hk, hfuel => by
    rcases fuel with _ | f
    · omega
    · rw [Nat.add_zero] at hk
      simp [gpcAttempt, hk]
  | k + 1, attempt, fuel, hreq, hk, hfuel => by
    rcases fuel with _ | f
    · omega
    rcases f with _ | f'
    · omega
    have h0 := hreq 0 (by omega)
    rw [Nat.add_zero] at h0
    have ih := gpcAttempt_otherAt att k (attempt + 1) (f' + 1)
      (fun i hi => by
        have hx := hreq (i + 1) (by omega)
        rwa [show attempt + (i + 1) = attempt + 1 + i by omega] at hx)
      (by rwa [show attempt + 1 + k = attempt + (k + 1) by omega])
      (by omega)
    simp [gpcAttempt, h0, ih]

/-- Claim C10: `get_page_content` never lets an exception cross its
boundary — every failure returns `none` — and only `RequestException`
failures are retried: if the first `k` attempts raise `RequestException`
and attempt `k` raises any other exception, the function returns `none`
after exactly `k + 1` attempts, without consuming the remaining
`maxRetries - (k + 1)` attempts. -/
theorem get_page_content_other_exception_immediate (useSelenium : Bool)
    (seleniumContent : Nat → Option String) (requestResult : Nat → FetchOutcome)
    (maxRetries k : Nat)
    (hreq : ∀ i, i < k →
      attemptOutcome useSelenium seleniumContent requestResult i = .requestException)
    (hother : attemptOutcome useSelenium seleniumContent requestResult k = .otherException)
    (hk : k < maxRetries) :
    get_page_content useSelenium seleniumContent requestResult maxRetries
      = (none, k + 1) :=
  gpcAttempt_otherAt _ k 0 maxRetries
    (fun i hi => by rw [Nat.zero_add]; exact hreq i hi)
    (by rw [Nat.zero_add]; exact hother) hk

/-- Witness for claim C10: with `max_retries = 3`, a `RequestException`
on attempt 0 and a different exception on attempt 1, the function stops
after 2 attempts with `none`, leaving the third attempt unused. -/
theorem get_page_content_other_exception_immediate_witness :
    get_page_content false (fun _ => none)
        (fun i => if i = 0 then .requestException else .otherException) 3
      = (none, 2) :=
  get_page_content_other_exception_immediate false (fun _ => none)
    (fun i => if i = 0 then .requestException else .otherException) 3 1
    (fun i hi => by
      have : i = 0 := by omega
      subst this
      rfl)
    rfl (by omega)

/-- `FinancialTimesScraper.scrape_source_parallel` (ft_scraper.py lines
237-253): the per-source extraction runs inside a `try` that catches
every exception, so a source whose extractor raises (`Except.error`)
contributes the empty record list instead of propagating. -/
def scrape_source_parallel (outcome : Except String (List Article)) : List Article :=
  match outcome with
  | .ok articles => articles
  | .error _ => []

/-- The `as_completed` collection loop of `scrape_all_sources`
(ft_scraper.py lines 283-296): the per-source batches, in the order the
tasks complete, are flattened into `all_articles`. -/
def collectParallel (arrivals : List (Except String (List Article))) : List Article :=
  (arrivals.map scrape_source_parallel).flatten

/-- `FinancialTimesScraper.scrape_all_sources` (ft_scraper.py lines
255-322): the main-source articles, then the parallel batches in
completion order, are concatenated, deduplicated by url, filtered for
relevance, and bounded; the warning list models the `logger.warning`
call. -/
def scrape_all_sources (mainArticles : List Article)
    (arrivals : List (Except String (List Article)))
    (keywords urlPrefixes : List String) (minArticles maxArticles : Nat) :
    List Article × List String :=
  let allArticles := mainArticles ++ collectParallel arrivals
  let uniqueArticles := dedupe allArticles
  let filteredArticles := filter_articles keywords urlPrefixes uniqueArticles
  bound filteredArticles minArticles maxArticles

/-- A failing arrival contributes nothing to the collected batch. -/
theorem collectParallel_error (pre post : List (Except String (List Article)))
    (e : String) :
    collectParallel (pre ++ .error e :: post) = collectParallel (pre ++ post) := by
  simp [collectParallel, scrape_source_parallel]

/-- Claim C6: a failing source is isolated — the whole run with a failing
source in any position equals the run with that source absent, so the
failure contributes zero records and never affects sibling sources — and
when every source fails the run still returns the same result as a run
with no parallel sources at all (in particular it completes with a
result, never an exception). -/
theorem scrape_all_sources_failure_isolated (mainArticles : List Article)
    (keywords urlPrefixes : List String) (minArticles maxArticles : Nat) :
    (∀ (pre post : List (Except String (List Article))) (e : String),
        scrape_all_sources mainArticles (pre ++ .error e :: post)
            keywords urlPrefixes minArticles maxArticles
          = scrape_all_sources mainArticles (pre ++ post)
              keywords urlPrefixes minArticles maxArticles) ∧
      (∀ arrivals : List (Except String (List Article)),
        (∀ x ∈ arrivals, ∃ e, x = .error e) →
          scrape_all_sources mainArticles arrivals
              keywords urlPrefixes minArticles maxArticles
            = scrape_all_sources mainArticles []
                keywords urlPrefixes minArticles maxArticles) := by
  constructor
  · intro pre post e
    simp only [scrape_all_sources, collectParallel_error]
  · intro arrivals hall
    have hempty : collectParallel arrivals = [] := by
      induction arrivals with
      | nil => rfl
      | cons x rest ih =>
        rcases hall x (List.mem_cons_self x rest) with ⟨e, rfl⟩
        have := ih (fun y hy => hall y (List.mem_cons_of_mem _ hy))
        simpa [collectParallel, scrape_source_parallel] using this
    unfold scrape_all_sources
    rw [hempty]
    rfl

/-- Witness for claim C6 at concrete inputs: a run whose only parallel
source raises is identical to a run with no parallel sources, both for a
failing source inserted between two successes and for the all-failed
case. -/
theorem scrape_all_sources_failure_isolated_witness :
    scrape_all_sources [artA] [.ok [artB], .error "boom", .ok []]
        ["story"] ["https://"] 0 5
      = scrape_all_sources [artA] [.ok [artB], .ok []]
          ["story"] ["https://"] 0 5 ∧
      scrape_all_sources [artA] [.error "boom"] ["story"] ["https://"] 0 5
        = scrape_all_sources [artA] [] ["story"] ["https://"] 0 5 := by
  constructor
  · exact (scrape_all_sources_failure_isolated [artA] ["story"] ["https://"] 0 5).1
      [.ok [artB]] [.ok []] "boom"
  · exact (scrape_all_sources_failure_isolated [artA] ["story"] ["https://"] 0 5).2
      [.error "boom"] (by
        intro x hx
        simp only [List.mem_singleton] at hx
        exact ⟨"boom", hx⟩)
